import Mathlib

/-!
Shallow embedding of the submission pipeline in
`src/rhythmic_gymnastics_form_app.js`: the submission normalizer
(`sanitizeSubmission`), filename sanitizer (`fileSafe`), roster-log writer
(`ensureWorkbook` / `appendToExcel`), document renderer (`buildDocx`, its
participant table and date line), and notification dispatcher (`emailDocx`).
JavaScript strings are Lean `String`s; regex replaces and `trim` are modelled
over `List Char`; the wall clock is an explicit `CalDate` parameter; file and
mail I/O is modelled as explicit state passing.
-/

namespace RhythmicForm

/-- The whitespace class of JavaScript: the characters matched by the regex
class `\s` and removed by `String.prototype.trim`. -/
def jsSpace (c : Char) : Bool :=
  c = ' ' || c = '\t' || c = '\n' || c = '\r' || c = '\u000B' || c = '\u000C' ||
  c = ' ' || c = ' ' || (' ' ≤ c && c ≤ ' ') ||
  c = ' ' || c = ' ' || c = ' ' || c = ' ' || c = '　' ||
  c = '﻿'

/-- The character class `[\\/:*?"<>|\n\r]` of `fileSafe`'s first regex. -/
def unsafeChar (c : Char) : Bool :=
  c = '\\' || c = '/' || c = ':' || c = '*' || c = '?' || c = '"' ||
  c = '<' || c = '>' || c = '|' || c = '\n' || c = '\r'

/-- Worker for `collapseRuns`; the flag records whether the previous character
was part of a (already replaced) run of `p`-characters. -/
def collapseRunsAux (p : Char → Bool) (r : Char) : List Char → Bool → List Char
  | [], _ => []
  | c :: cs, inRun =>
    if p c then
      if inRun then collapseRunsAux p r cs true
      else r :: collapseRunsAux p r cs true
    else c :: collapseRunsAux p r cs false

/-- `s.replace(/[class]+/g, r)`: every maximal run of characters satisfying
`p` is replaced by the single character `r`. -/
def collapseRuns (p : Char → Bool) (r : Char) (l : List Char) : List Char :=
  collapseRunsAux p r l false

/-- Both-ends trim over a character list, as `String.prototype.trim`. -/
def jsTrimList (l : List Char) : List Char :=
  List.rdropWhile jsSpace (List.dropWhile jsSpace l)

/-- `String.prototype.trim`. -/
def jsTrim (s : String) : String := ⟨jsTrimList s.data⟩

/-- `fileSafe` over a character list:
`name.replace(/[\\/:*?"<>|\n\r]+/g, '_').replace(/\s+/g, ' ').trim()`. -/
def fileSafeList (l : List Char) : List Char :=
  jsTrimList (collapseRuns jsSpace ' ' (collapseRuns unsafeChar '_' l))

/-- `fileSafe(name)` from the source. -/
def fileSafe (s : String) : String := ⟨fileSafeList s.data⟩

/-- `a || b` on JavaScript strings: the empty string is the only falsy one. -/
def jsOr (a b : String) : String := if a = "" then b else a

/-- `a || b` on JavaScript non-negative numbers: `0` is the only falsy one. -/
def jsOrNat (a b : Nat) : Nat := if a = 0 then b else a

/-- `Array.prototype.join(sep)` on an array of strings. -/
def jsJoin (sep : String) : List String → String
  | [] => ""
  | [l] => l
  | l :: ls => l ++ sep ++ jsJoin sep ls

/-- Truthiness of a JavaScript string (used by `.filter(Boolean)`). -/
def jsTruthy (s : String) : Bool := !(s == "")

/-- Decimal digit character. -/
def decDigit (n : Nat) : Char := Char.ofNat (48 + n)

/-- Decimal digits of a natural number, most significant first, using fuel
for structural recursion (`fuel = n` always suffices). -/
def decDigitsFuel : Nat → Nat → List Char → List Char
  | 0, n, acc => decDigit (n % 10) :: acc
  | fuel + 1, n, acc =>
    if n < 10 then decDigit n :: acc
    else decDigitsFuel fuel (n / 10) (decDigit (n % 10) :: acc)

/-- JavaScript `String(n)` for a non-negative integer. -/
def natStr (n : Nat) : String := ⟨decDigitsFuel n n []⟩

/-- JavaScript `String(n)` for an integer. -/
def intStr (n : Int) : String :=
  if n < 0 then "-" ++ natStr n.natAbs else natStr n.toNat

/-- The wall-clock date, passed explicitly where the source calls `dayjs()`. -/
structure CalDate where
  day : Nat
  month : Nat
  year : Nat
deriving DecidableEq, Repr

/-- Two-digit zero-padded field of `dayjs().format` (`DD`, `MM`). -/
def pad2 (n : Nat) : String := if n < 10 then "0" ++ natStr n else natStr n

/-- Four-digit zero-padded field of `dayjs().format` (`YYYY`). -/
def pad4 (n : Nat) : String :=
  if n < 10 then "000" ++ natStr n
  else if n < 100 then "00" ++ natStr n
  else if n < 1000 then "0" ++ natStr n
  else natStr n

/-- `dayjs().format('DD.MM.YYYY')`. -/
def dayjsDDMMYYYY (d : CalDate) : String :=
  pad2 d.day ++ "." ++ pad2 d.month ++ "." ++ pad4 d.year

/-- A normalized participant, as produced by `sanitizeSubmission`. -/
structure Participant where
  idx : Nat
  name : String
  birthYear : String
  hasRank : String
  performingRank : String
  medicalVisa : String
deriving DecidableEq, Repr

/-- A normalized submission, as produced by `sanitizeSubmission`. -/
structure Submission where
  date : String
  city : String
  club : String
  contacts : String
  coach : String
  judge : String
  judgeCategory : String
  participants : List Participant
deriving DecidableEq, Repr

/-- A concrete normalized participant, used to evaluate theorems on closed
inputs. -/
def samplePart1 : Participant :=
  ⟨1, "Петрова А.", "2012", "", "", ""⟩

/-- A second concrete participant. -/
def samplePart2 : Participant :=
  ⟨2, "Сидорова Б.", "2013", "б/р", "б/р", "есть"⟩

/-- A concrete submission with two participants. -/
def sampleSub2 : Submission :=
  ⟨"05.03.2026", "Мытищи", "Звезда", "+7 900 000-00-00", "Иванова И.И.",
   "Петрова П.П.", "1 категория", [samplePart1, samplePart2]⟩

/-- A concrete submission with one participant. -/
def sampleSub1 : Submission :=
  ⟨"05.03.2026", "Мытищи", "Звезда", "", "Иванова И.И.", "", "", [samplePart1]⟩

/-- A concrete submission with no participants and blank fields. -/
def sampleSub0 : Submission :=
  ⟨"05.03.2026", "", "", "", "", "", "", []⟩

/-- A concrete submission whose club name holds filesystem-unsafe
characters. -/
def sampleSubUnsafeClub : Submission :=
  ⟨"05.03.2026", "", "A/B:C", "", "", "", "", []⟩

/-- One row of the `Submissions` worksheet, in the column order of
`ensureWorkbook`.  A key absent from the object passed to `ws.addRow` leaves
that cell empty: empty cells are `""` (and `none` for the numeric
`Participant #` column). -/
structure Row where
  ts : String
  date : String
  city : String
  club : String
  contacts : String
  coach : String
  judge : String
  judgeCategory : String
  p_idx : Option Nat
  p_name : String
  p_birth : String
  p_has : String
  p_perf : String
  p_med : String
deriving DecidableEq, Repr

/-- The roster log: header row plus data rows. -/
structure Workbook where
  header : List String
  rows : List Row
deriving DecidableEq, Repr

/-- The headers of the 14 columns set by `ensureWorkbook`. -/
def excelHeader : List String :=
  ["Timestamp", "Date (on form)", "City", "Club/School", "Contacts",
   "Coach (FIO)", "Judge (FIO)", "Judge Category", "Participant #",
   "Participant Name", "Birth Year", "Has Rank", "Performing Rank",
   "Medical Visa"]

/-- `ensureWorkbook()`: the fresh workbook it writes — the `Submissions`
sheet with the fixed header and no data rows. -/
def ensureWorkbook : Workbook := { header := excelHeader, rows := [] }

/-- The guarded creation pattern at every call site of `ensureWorkbook`
(`if (!fs.existsSync(EXCEL_PATH)) await ensureWorkbook()` in
`/download-excel`, and the existence branch of `appendToExcel`): the state of
the log file after the operation, where `none` is an absent file. -/
def ensureLog : Option Workbook → Workbook
  | none => ensureWorkbook
  | some wb => wb

/-- The data row added for one participant by `appendToExcel`. -/
def participantRow (ts : String) (payload : Submission) (p : Participant) : Row :=
  { ts := ts, date := payload.date, city := payload.city, club := payload.club,
    contacts := payload.contacts, coach := payload.coach, judge := payload.judge,
    judgeCategory := payload.judgeCategory, p_idx := some p.idx, p_name := p.name,
    p_birth := p.birthYear, p_has := p.hasRank, p_perf := p.performingRank,
    p_med := p.medicalVisa }

/-- The single row added by `appendToExcel` when `participants` is empty:
the participant keys are absent from the `addRow` object, so those cells are
blank. -/
def blankParticipantRow (ts : String) (payload : Submission) : Row :=
  { ts := ts, date := payload.date, city := payload.city, club := payload.club,
    contacts := payload.contacts, coach := payload.coach, judge := payload.judge,
    judgeCategory := payload.judgeCategory, p_idx := none, p_name := "",
    p_birth := "", p_has := "", p_perf := "", p_med := "" }

/-- The rows `appendToExcel` adds for `payload`:
`if (!payload.participants.length) { one blank row } else { one row per
participant, in order }`. -/
def submissionRows (ts : String) (payload : Submission) : List Row :=
  if payload.participants.length = 0 then
    [blankParticipantRow ts payload]
  else
    payload.participants.map (participantRow ts payload)

/-- `appendToExcel(payload)`: read the log (creating it when the file is
absent), add the rows, write the whole file back.  `ts` is the single
`dayjs().format('YYYY-MM-DD HH:mm:ss')` taken before the loop. -/
def appendToExcel (ts : String) (payload : Submission) (st : Option Workbook) :
    Workbook :=
  let wb := ensureLog st
  { wb with rows := wb.rows ++ submissionRows ts payload }

/-- One data row of the participant table of `buildDocx`, as its six cell
texts: `cell(String(p ? p.idx : i + 1))`, then the five field cells with
`p ? (p.field || '') : ''`. -/
def docxRow (i : Nat) : Option Participant → List String
  | some p =>
    [natStr p.idx, jsOr p.name "", jsOr p.birthYear "", jsOr p.hasRank "",
     jsOr p.performingRank "", jsOr p.medicalVisa ""]
  | none => [natStr (i + 1), "", "", "", "", ""]

/-- The array the participant-table body is mapped over:
`data.participants && data.participants.length ? data.participants
: new Array(8).fill(null)`. -/
def docxBodySource (d : Submission) : List (Option Participant) :=
  if d.participants.length ≠ 0 then d.participants.map some
  else List.replicate 8 none

/-- `.map((p, i) => ...)` over the body source, carrying the index. -/
def docxRows : List (Option Participant) → Nat → List (List String)
  | [], _ => []
  | po :: rest, i => docxRow i po :: docxRows rest (i + 1)

/-- The data rows (below the header row) of the six-column participant table
rendered by `buildDocx`. -/
def buildDocxBodyRows (d : Submission) : List (List String) :=
  docxRows (docxBodySource d) 0

/-- The location-and-date header line of `buildDocx`:
`` baseRun(`г. Мытищи, ${data.date}`) ``. -/
def docxDateLine (d : Submission) : String := "г. Мытищи, " ++ d.date

/-- The attachment filename of `emailDocx` (also of `/download-docx`):
`` `Заявка_${fileSafe(payload.club || 'Заявка')}.docx` ``. -/
def emailAttachmentName (payload : Submission) : String :=
  "Заявка_" ++ fileSafe (jsOr payload.club "Заявка") ++ ".docx"

/-- The mail subject of `emailDocx`:
`` `Заявка: ${payload.club || 'без названия'}` ``. -/
def emailSubject (payload : Submission) : String :=
  "Заявка: " ++ jsOr payload.club "без названия"

/-- The plain-text mail body of `emailDocx`: the six template lines joined
with `'\n'`. -/
def emailBodyText (payload : Submission) : String :=
  jsJoin "\n"
    ["Клуб/школа: " ++ jsOr payload.club "-",
     "Город: " ++ jsOr payload.city "-",
     "Тренер: " ++ jsOr payload.coach "-",
     "Контакты: " ++ jsOr payload.contacts "-",
     "Судья: " ++
       jsOr (jsJoin ", " ([payload.judge, payload.judgeCategory].filter jsTruthy)) "-",
     "Участниц: " ++ natStr (jsOrNat payload.participants.length 0)]

/-- JavaScript values as delivered by `JSON.parse` (plus `undefined`, the
result of reading an absent property).  Numbers are modelled as integers. -/
inductive JSValue where
  | null
  | undefined
  | bool (b : Bool)
  | num (n : Int)
  | str (s : String)
  | arr (elems : List JSValue)
  | obj (fields : List (String × JSValue))

/-- Property lookup on an object literal / parsed JSON object: on duplicate
keys the later binding wins; an absent key reads as `undefined`. -/
def lookupLast (k : String) : List (String × JSValue) → JSValue
  | [] => .undefined
  | (k', v) :: rest =>
    match lookupLast k rest with
    | .undefined => if k' = k then v else .undefined
    | w => w

/-- `v` is neither `null` nor `undefined` (property access on it succeeds). -/
def notNullish : JSValue → Bool
  | .null => false
  | .undefined => false
  | _ => true

/-- JavaScript property access `v.k`: a thrown `TypeError` on `null` /
`undefined` is `Except.error`; on other primitives the properties read here
are all `undefined`. -/
def getProp : JSValue → String → Except Unit JSValue
  | .null, _ => .error ()
  | .undefined, _ => .error ()
  | .obj fields, k => .ok (lookupLast k fields)
  | _, _ => .ok .undefined

/-- Total version of `getProp` for non-nullish receivers. -/
def getPropD : JSValue → String → JSValue
  | .obj fields, k => lookupLast k fields
  | _, _ => .undefined

mutual
/-- JavaScript `String(v)` for the values of the model. -/
def jsToString : JSValue → String
  | .null => "null"
  | .undefined => "undefined"
  | .bool true => "true"
  | .bool false => "false"
  | .num n => intStr n
  | .str s => s
  | .arr elems => jsJoin "," (arrElemStrings elems)
  | .obj _ => "[object Object]"

/-- `Array.prototype.toString` renders `null` and `undefined` elements as
empty strings. -/
def arrElemStrings : List JSValue → List String
  | [] => []
  | .null :: rest => "" :: arrElemStrings rest
  | .undefined :: rest => "" :: arrElemStrings rest
  | v :: rest => jsToString v :: arrElemStrings rest
end

/-- `const pick = (v) => (v == null ? '' : String(v).trim())` — loose
equality `v == null` holds exactly for `null` and `undefined`. -/
def jsPick (v : JSValue) : String :=
  match v with
  | .null => ""
  | .undefined => ""
  | _ => jsTrim (jsToString v)

/-- The participant record built inside `b.participants.map((p, i) => ...)`;
the five property reads throw exactly when `p` is nullish. -/
def sanitizePart (p : JSValue) (i : Nat) : Except Unit Participant := do
  let name ← getProp p "name"
  let birthYear ← getProp p "birthYear"
  let hasRank ← getProp p "hasRank"
  let performingRank ← getProp p "performingRank"
  let medicalVisa ← getProp p "medicalVisa"
  pure { idx := i + 1, name := jsPick name, birthYear := jsPick birthYear,
         hasRank := jsPick hasRank, performingRank := jsPick performingRank,
         medicalVisa := jsPick medicalVisa }

/-- `b.participants.map((p, i) => ...)` with the running index `i`. -/
def sanitizeParts : List JSValue → Nat → Except Unit (List Participant)
  | [], _ => .ok []
  | p :: rest, i => do
    let part ← sanitizePart p i
    let tail ← sanitizeParts rest (i + 1)
    pure (part :: tail)

/-- `Array.isArray(v) ? v.map((p, i) => ...) : []`. -/
def participantsOf : JSValue → Except Unit (List Participant)
  | .arr xs => sanitizeParts xs 0
  | _ => .ok []

/-- `sanitizeSubmission(b)`.  `now` is the wall-clock date read by
`dayjs()`; a thrown `TypeError` is `Except.error`. -/
def sanitizeSubmission (now : CalDate) (b : JSValue) : Except Unit Submission := do
  let date ← getProp b "date"
  let city ← getProp b "city"
  let club ← getProp b "club"
  let contacts ← getProp b "contacts"
  let coach ← getProp b "coach"
  let judge ← getProp b "judge"
  let judgeCategory ← getProp b "judgeCategory"
  let partsVal ← getProp b "participants"
  let participants ← participantsOf partsVal
  pure { date := jsOr (jsPick date) (dayjsDDMMYYYY now),
         city := jsPick city, club := jsPick club, contacts := jsPick contacts,
         coach := jsPick coach, judge := jsPick judge,
         judgeCategory := jsPick judgeCategory, participants := participants }

/-- The participant `sanitizeSubmission` produces from a non-nullish entry. -/
def sanitizedPart (p : JSValue) (i : Nat) : Participant :=
  { idx := i + 1, name := jsPick (getPropD p "name"),
    birthYear := jsPick (getPropD p "birthYear"),
    hasRank := jsPick (getPropD p "hasRank"),
    performingRank := jsPick (getPropD p "performingRank"),
    medicalVisa := jsPick (getPropD p "medicalVisa") }

/-- The participant list `sanitizeSubmission` produces when every entry is
non-nullish. -/
def sanitizedParts : List JSValue → Nat → List Participant
  | [], _ => []
  | p :: rest, i => sanitizedPart p i :: sanitizedParts rest (i + 1)

/-- Length of a participants value after the `Array.isArray` coercion. -/
def arrLen : JSValue → Nat
  | .arr xs => xs.length
  | _ => 0

/-- The submission record `sanitizeSubmission` builds once the participant
list is known. -/
def sanitizedWith (now : CalDate) (b : JSValue) (parts : List Participant) :
    Submission :=
  { date := jsOr (jsPick (getPropD b "date")) (dayjsDDMMYYYY now),
    city := jsPick (getPropD b "city"), club := jsPick (getPropD b "club"),
    contacts := jsPick (getPropD b "contacts"),
    coach := jsPick (getPropD b "coach"), judge := jsPick (getPropD b "judge"),
    judgeCategory := jsPick (getPropD b "judgeCategory"),
    participants := parts }

/-- The participants branch of `sanitizeSubmission` for a non-nullish input:
map over the array, or the empty list when the field is not an array. -/
def partsResult (b : JSValue) : Except Unit (List Participant) :=
  participantsOf (getPropD b "participants")

/-- A concrete malformed participants array: a participant with junk `idx`
and untrimmed name, then several non-object entries. -/
def c1SampleParts : List JSValue :=
  [JSValue.obj [("name", JSValue.str " Ann "), ("idx", JSValue.num 42)],
   JSValue.num 7, JSValue.str "x", JSValue.arr [], JSValue.bool true]

/-- A concrete malformed input object: wrong-typed and null fields, and the
participants array above. -/
def c1SampleInput : JSValue :=
  JSValue.obj [("city", JSValue.num 5), ("club", JSValue.null),
    ("participants", JSValue.arr c1SampleParts)]

/-- A concrete input whose participant entries carry `idx`-like junk. -/
def c4SampleInput : JSValue :=
  JSValue.obj [("date", JSValue.str "01.01.2026"),
    ("participants", JSValue.arr
      [JSValue.obj [("idx", JSValue.num 99), ("name", JSValue.str "A")],
       JSValue.obj [("idx", JSValue.num 0)]])]

/-- The normalized submission produced from `c4SampleInput`. -/
def c4SampleOut : Submission :=
  ⟨"01.01.2026", "", "", "", "", "", "",
   [⟨1, "A", "", "", "", ""⟩, ⟨2, "", "", "", "", ""⟩]⟩

/-- A concrete input with no date field. -/
def c6SampleInput : JSValue :=
  JSValue.obj [("club", JSValue.str " Клуб ")]

/-- The normalized submission produced from `c6SampleInput` on 05.03.2026. -/
def c6SampleOut : Submission :=
  ⟨"05.03.2026", "", "Клуб", "", "", "", "", []⟩

/-- No two adjacent characters of the list both satisfy `p` (the shape of a
string whose `p`-runs have all been collapsed). -/
def spaced (p : Char → Bool) : List Char → Bool
  | [] => true
  | [_] => true
  | a :: b :: rest => (!(p a && p b)) && spaced p (b :: rest)

/-- The head of the list, when present, does not satisfy `p`. -/
def headNotP (p : Char → Bool) : List Char → Bool
  | [] => true
  | c :: _ => !p c

/-! ### Basic lemmas -/

theorem jsOr_empty (s : String) : jsOr s "" = s := by
  simp only [jsOr]; split <;> simp_all

theorem jsOrNat_zero (a : Nat) : jsOrNat a 0 = a := by
  unfold jsOrNat; split <;> omega

theorem docxRows_map_some (l : List Participant) (i : Nat) :
    docxRows (l.map some) i =
      l.map fun p => [natStr p.idx, p.name, p.birthYear, p.hasRank,
        p.performingRank, p.medicalVisa] := by
  induction l generalizing i with
  | nil => rfl
  | cons p rest ih => simp [docxRows, docxRow, jsOr_empty, ih]

/-! ### The roster log (claims C5, C2) -/

/-- C5: `ensureLog` creates the log with the fixed 14-column header and zero
data rows when the log is absent, and is idempotent: on an existing log it
leaves the contents unchanged. -/
theorem ensureLog_creates_and_idempotent (st : Option Workbook) :
    (ensureLog none).header = excelHeader ∧ excelHeader.length = 14
    ∧ (ensureLog none).rows = []
    ∧ (∀ wb, ensureLog (some wb) = wb)
    ∧ ensureLog (some (ensureLog st)) = ensureLog st :=
  ⟨rfl, by decide, rfl, fun _ => rfl, rfl⟩

/-- C2: `appendToExcel` appends exactly `N` rows when the submission has
`N ≥ 1` participants — each carrying the submission-level fields plus that
participant's fields, in sequence order — and exactly one row with blank
participant fields when it has none. -/
theorem appendToExcel_adds_rows (ts : String) (payload : Submission)
    (st : Option Workbook) :
    (appendToExcel ts payload st).rows
        = (ensureLog st).rows ++ submissionRows ts payload
    ∧ (submissionRows ts payload).length = max 1 payload.participants.length
    ∧ (∀ r ∈ submissionRows ts payload, r.ts = ts ∧ r.date = payload.date
        ∧ r.city = payload.city ∧ r.club = payload.club
        ∧ r.contacts = payload.contacts ∧ r.coach = payload.coach
        ∧ r.judge = payload.judge ∧ r.judgeCategory = payload.judgeCategory)
    ∧ (1 ≤ payload.participants.length → submissionRows ts payload
        = payload.participants.map (participantRow ts payload))
    ∧ (payload.participants.length = 0 → submissionRows ts payload
        = [blankParticipantRow ts payload]) := by
  refine ⟨rfl, ?_, ?_, ?_, ?_⟩
  · simp only [submissionRows]
    split
    · rename_i h; simp [h]
    · rename_i h; simp; omega
  · intro r hr
    simp only [submissionRows] at hr
    split at hr
    · simp only [List.mem_singleton] at hr
      subst hr
      exact ⟨rfl, rfl, rfl, rfl, rfl, rfl, rfl, rfl⟩
    · obtain ⟨p, -, rfl⟩ := List.mem_map.mp hr
      exact ⟨rfl, rfl, rfl, rfl, rfl, rfl, rfl, rfl⟩
  · intro h
    simp only [submissionRows]
    rw [if_neg (by omega)]
  · intro h
    simp [submissionRows, h]

/-- C2 witness: a concrete two-participant submission appends two rows, and a
participant-free one appends the single blank row. -/
theorem appendToExcel_adds_rows_at_inputs :
    (submissionRows "2026-03-05 10:00:00" sampleSub2
      = sampleSub2.participants.map
          (participantRow "2026-03-05 10:00:00" sampleSub2))
    ∧ (submissionRows "2026-03-05 10:00:00" sampleSub0
      = [blankParticipantRow "2026-03-05 10:00:00" sampleSub0]) :=
  ⟨(appendToExcel_adds_rows "2026-03-05 10:00:00" sampleSub2 none).2.2.2.1
      (by decide),
   (appendToExcel_adds_rows "2026-03-05 10:00:00" sampleSub0 none).2.2.2.2
      (by decide)⟩

/-! ### The rendered participant table (claim C3) -/

/-- C3: rendering with 0 participants yields exactly 8 blank data rows
numbered 1..8; rendering with `N ≥ 1` participants yields exactly the `N`
rows in sequence order, per-participant fields rendered as plain strings
(the `|| ''` fallback is the identity on the normalized strings). -/
theorem buildDocx_participant_rows (d : Submission) :
    (d.participants.length = 0 → buildDocxBodyRows d =
      [["1", "", "", "", "", ""], ["2", "", "", "", "", ""],
       ["3", "", "", "", "", ""], ["4", "", "", "", "", ""],
       ["5", "", "", "", "", ""], ["6", "", "", "", "", ""],
       ["7", "", "", "", "", ""], ["8", "", "", "", "", ""]])
    ∧ (1 ≤ d.participants.length → buildDocxBodyRows d =
        d.participants.map fun p => [natStr p.idx, p.name, p.birthYear,
          p.hasRank, p.performingRank, p.medicalVisa]) := by
  constructor
  · intro h
    have hs : docxBodySource d = List.replicate 8 none := by
      simp [docxBodySource, h]
    rw [buildDocxBodyRows, hs]
    decide
  · intro h
    have hs : docxBodySource d = d.participants.map some := by
      rw [docxBodySource, if_pos (by omega)]
    rw [buildDocxBodyRows, hs, docxRows_map_some]

/-- C3 witness: the two branches at concrete submissions. -/
theorem buildDocx_participant_rows_at_inputs :
    buildDocxBodyRows sampleSub0 =
      [["1", "", "", "", "", ""], ["2", "", "", "", "", ""],
       ["3", "", "", "", "", ""], ["4", "", "", "", "", ""],
       ["5", "", "", "", "", ""], ["6", "", "", "", "", ""],
       ["7", "", "", "", "", ""], ["8", "", "", "", "", ""]]
    ∧ buildDocxBodyRows sampleSub1 =
      sampleSub1.participants.map (fun p => [natStr p.idx, p.name,
        p.birthYear, p.hasRank, p.performingRank, p.medicalVisa]) :=
  ⟨(buildDocx_participant_rows sampleSub0).1 (by decide),
   (buildDocx_participant_rows sampleSub1).2 (by decide)⟩

/-! ### The notification dispatcher (claims C9, C8) -/

theorem append_comma_ne_empty (j c : String) : j ++ ", " ++ c ≠ "" := by
  intro h
  have hl := congrArg String.length h
  rw [String.length_append, String.length_append] at hl
  have h2 : (", ").length = 2 := rfl
  have h0 : ("" : String).length = 0 := rfl
  omega

/-- `[judge, judgeCategory].filter(Boolean).join(', ') || '-'`, written out
by cases on the two fields being blank. -/
theorem judge_line (j c : String) :
    jsOr (jsJoin ", " ([j, c].filter jsTruthy)) "-" =
      if j = "" then (if c = "" then "-" else c)
      else if c = "" then j else j ++ ", " ++ c := by
  cases hjb : j == "" <;> cases hcb : c == ""
  · have hj := ne_of_beq_false hjb
    have hc := ne_of_beq_false hcb
    simp [List.filter_cons, jsTruthy, hjb, hcb, jsJoin, jsOr, hj, hc,
      append_comma_ne_empty j c]
  · have hj := ne_of_beq_false hjb
    have hc := eq_of_beq hcb
    simp [List.filter_cons, jsTruthy, hjb, hcb, jsJoin, jsOr, hj, hc]
  · have hj := eq_of_beq hjb
    have hc := ne_of_beq_false hcb
    simp [List.filter_cons, jsTruthy, hjb, hcb, jsJoin, jsOr, hj, hc]
  · have hj := eq_of_beq hjb
    have hc := eq_of_beq hcb
    simp [List.filter_cons, jsTruthy, hjb, hcb, jsJoin, jsOr, hj, hc]

/-- C9: the mail subject is the fixed prefix plus the club name with a
placeholder when the club is blank, and the body is the fixed-order summary
of club, city, coach, contacts, judge+category (joined by a comma, empty
parts dropped) and participant count, blank fields rendered as a dash. -/
theorem emailDocx_subject_body (p : Submission) :
    emailSubject p = "Заявка: " ++ (if p.club = "" then "без названия" else p.club)
    ∧ emailBodyText p =
        "Клуб/школа: " ++ (if p.club = "" then "-" else p.club) ++ "\n" ++
        ("Город: " ++ (if p.city = "" then "-" else p.city) ++ "\n" ++
        ("Тренер: " ++ (if p.coach = "" then "-" else p.coach) ++ "\n" ++
        ("Контакты: " ++ (if p.contacts = "" then "-" else p.contacts) ++ "\n" ++
        ("Судья: " ++ (if p.judge = "" then
              (if p.judgeCategory = "" then "-" else p.judgeCategory)
            else if p.judgeCategory = "" then p.judge
            else p.judge ++ ", " ++ p.judgeCategory) ++ "\n" ++
        ("Участниц: " ++ natStr p.participants.length))))) := by
  constructor
  · rfl
  · rw [emailBodyText]
    simp only [jsJoin, jsOrNat_zero]
    rw [judge_line]
    simp only [jsOr]

/-- C8: the attachment filename is always `Заявка_` + sanitized club +
`.docx`, with the fixed placeholder when the club is blank; the club
`A/B:C` yields `A_B_C` in place of the unsafe characters. -/
theorem emailDocx_attachment_name (p : Submission) :
    emailAttachmentName p
        = "Заявка_" ++ fileSafe (jsOr p.club "Заявка") ++ ".docx"
    ∧ (p.club = "" → emailAttachmentName p = "Заявка_Заявка.docx")
    ∧ (p.club = "A/B:C" → emailAttachmentName p = "Заявка_A_B_C.docx")
    ∧ (p.club = "A//B :C" → emailAttachmentName p = "Заявка_A_B _C.docx") := by
  refine ⟨rfl, ?_, ?_, ?_⟩ <;> (intro h; simp only [emailAttachmentName, h]; decide)

/-- C8 witness: the filename at concrete blank and unsafe club names. -/
theorem emailDocx_attachment_name_at_inputs :
    emailAttachmentName sampleSub0 = "Заявка_Заявка.docx"
    ∧ emailAttachmentName sampleSubUnsafeClub = "Заявка_A_B_C.docx" :=
  ⟨(emailDocx_attachment_name sampleSub0).2.1 rfl,
   (emailDocx_attachment_name sampleSubUnsafeClub).2.2.1 rfl⟩

/-! ### Structure of `collapseRuns` output (towards claims C7, C10) -/

theorem collapseRunsAux_mem (p : Char → Bool) (r : Char) :
    ∀ (l : List Char) (fl : Bool) (c : Char),
      c ∈ collapseRunsAux p r l fl → c = r ∨ (c ∈ l ∧ p c = false) := by
  intro l
  induction l with
  | nil => intro fl c hc; simp [collapseRunsAux] at hc
  | cons a as ih =>
    intro fl c hc
    simp only [collapseRunsAux] at hc
    split at hc
    · split at hc
      · rcases ih true c hc with h | ⟨hmem, hp⟩
        · exact Or.inl h
        · exact Or.inr ⟨List.mem_cons_of_mem _ hmem, hp⟩
      · rcases List.mem_cons.mp hc with h | h
        · exact Or.inl h
        · rcases ih true c h with h2 | ⟨hmem, hp⟩
          · exact Or.inl h2
          · exact Or.inr ⟨List.mem_cons_of_mem _ hmem, hp⟩
    · rcases List.mem_cons.mp hc with h | h
      · subst h
        rename_i hpa
        exact Or.inr ⟨List.mem_cons_self _ _, by simpa using hpa⟩
      · rcases ih false c h with h2 | ⟨hmem, hp⟩
        · exact Or.inl h2
        · exact Or.inr ⟨List.mem_cons_of_mem _ hmem, hp⟩

theorem spaced_tail (p : Char → Bool) {a : Char} {l : List Char}
    (h : spaced p (a :: l) = true) : spaced p l = true := by
  cases l with
  | nil => rfl
  | cons b bs =>
    simp only [spaced, Bool.and_eq_true] at h
    exact h.2

theorem spaced_cons (p : Char → Bool) (x : Char) {t : List Char}
    (ht : spaced p t = true) (hh : headNotP p t = true) :
    spaced p (x :: t) = true := by
  cases t with
  | nil => rfl
  | cons b bs =>
    have hb : p b = false := by simpa [headNotP] using hh
    show ((!(p x && p b)) && spaced p (b :: bs)) = true
    rw [hb, ht]
    simp

theorem spaced_cons_of_not (p : Char → Bool) {x : Char} (hx : p x = false)
    {t : List Char} (ht : spaced p t = true) : spaced p (x :: t) = true := by
  cases t with
  | nil => rfl
  | cons b bs =>
    show ((!(p x && p b)) && spaced p (b :: bs)) = true
    rw [hx, ht]
    simp

theorem spaced_of_none (p : Char → Bool) :
    ∀ (l : List Char), (∀ c ∈ l, p c = false) → spaced p l = true := by
  intro l
  induction l with
  | nil => intro _; rfl
  | cons a t ih =>
    intro h
    cases t with
    | nil => rfl
    | cons b bs =>
      have ha : p a = false := h a (List.mem_cons_self a _)
      show ((!(p a && p b)) && spaced p (b :: bs)) = true
      rw [ha, ih (fun c hc => h c (List.mem_cons_of_mem _ hc))]
      simp

theorem spaced_append_right (p : Char → Bool) :
    ∀ (u v : List Char), spaced p (u ++ v) = true → spaced p v = true := by
  intro u
  induction u with
  | nil => intro v h; exact h
  | cons a us ih =>
    intro v h
    exact ih v (spaced_tail p h)

theorem spaced_append_left (p : Char → Bool) :
    ∀ (u v : List Char), spaced p (u ++ v) = true → spaced p u = true := by
  intro u
  induction u with
  | nil => intro v _; rfl
  | cons a us ih =>
    intro v h
    cases us with
    | nil => rfl
    | cons b bs =>
      have h1 : (!(p a && p b)) = true := by
        simp only [List.cons_append, spaced, Bool.and_eq_true] at h
        exact h.1
      have h2 : spaced p (b :: bs) = true := ih v (spaced_tail p h)
      show ((!(p a && p b)) && spaced p (b :: bs)) = true
      rw [h1, h2]
      simp

theorem collapseRunsAux_spaced (p : Char → Bool) (r : Char) :
    ∀ (l : List Char) (fl : Bool),
      spaced p (collapseRunsAux p r l fl) = true
      ∧ (fl = true → headNotP p (collapseRunsAux p r l fl) = true) := by
  intro l
  induction l with
  | nil => intro fl; exact ⟨rfl, fun _ => rfl⟩
  | cons a as ih =>
    intro fl
    by_cases hpa : p a = true
    · cases fl
      · have hout : collapseRunsAux p r (a :: as) false
            = r :: collapseRunsAux p r as true := by
          simp [collapseRunsAux, hpa]
        refine ⟨?_, fun h => nomatch h⟩
        rw [hout]
        exact spaced_cons p r (ih true).1 ((ih true).2 rfl)
      · have hout : collapseRunsAux p r (a :: as) true
            = collapseRunsAux p r as true := by
          simp [collapseRunsAux, hpa]
        rw [hout]
        exact ⟨(ih true).1, fun _ => (ih true).2 rfl⟩
    · have hpa' : p a = false := by simpa using hpa
      have hout : collapseRunsAux p r (a :: as) fl
          = a :: collapseRunsAux p r as false := by
        simp [collapseRunsAux, hpa']
      refine ⟨?_, ?_⟩
      · rw [hout]
        exact spaced_cons_of_not p hpa' (ih false).1
      · intro _
        rw [hout]
        simp [headNotP, hpa']

theorem collapseRunsAux_eq_self (p : Char → Bool) (r : Char) :
    ∀ (l : List Char) (fl : Bool),
      spaced p l = true → (∀ c ∈ l, p c = true → c = r) →
      (fl = true → headNotP p l = true) →
      collapseRunsAux p r l fl = l := by
  intro l
  induction l with
  | nil => intro fl _ _ _; rfl
  | cons a as ih =>
    intro fl hsp hall hfl
    by_cases hpa : p a = true
    · cases fl
      · have har : a = r := hall a (List.mem_cons_self a as) hpa
        have hstep : collapseRunsAux p r (a :: as) false
            = r :: collapseRunsAux p r as true := by
          simp [collapseRunsAux, hpa]
        rw [hstep, har]
        congr 1
        apply ih true (spaced_tail p hsp)
          (fun c hc hpc => hall c (List.mem_cons_of_mem _ hc) hpc)
        intro _
        cases as with
        | nil => rfl
        | cons b bs =>
          have h1 : (!(p a && p b)) = true := by
            simp only [spaced, Bool.and_eq_true] at hsp
            exact hsp.1
          have hb : p b = false := by simpa [hpa] using h1
          simp [headNotP, hb]
      · have := hfl rfl
        simp [headNotP, hpa] at this
    · have hpa' : p a = false := by simpa using hpa
      have hstep : collapseRunsAux p r (a :: as) fl
          = a :: collapseRunsAux p r as false := by
        simp [collapseRunsAux, hpa']
      rw [hstep]
      congr 1
      exact ih false (spaced_tail p hsp)
        (fun c hc hpc => hall c (List.mem_cons_of_mem _ hc) hpc)
        (fun h => nomatch h)

theorem collapseRuns_eq_self (p : Char → Bool) (r : Char) (l : List Char)
    (hsp : spaced p l = true) (hall : ∀ c ∈ l, p c = true → c = r) :
    collapseRuns p r l = l :=
  collapseRunsAux_eq_self p r l false hsp hall (fun h => nomatch h)

/-! ### Structure of the trim (towards claim C7) -/

theorem jsTrimList_subset (l : List Char) : ∀ c ∈ jsTrimList l, c ∈ l := by
  intro c hc
  unfold jsTrimList at hc
  exact (List.dropWhile_suffix jsSpace).subset
    ((List.rdropWhile_prefix jsSpace (List.dropWhile jsSpace l)).subset hc)

theorem headNotP_dropWhile (p : Char → Bool) :
    ∀ l : List Char, headNotP p (List.dropWhile p l) = true := by
  intro l
  induction l with
  | nil => rfl
  | cons a as ih =>
    by_cases hpa : p a = true
    · rw [List.dropWhile_cons, if_pos hpa]
      exact ih
    · have hpa' : p a = false := by simpa using hpa
      rw [List.dropWhile_cons, if_neg (by simp [hpa'])]
      simp [headNotP, hpa']

theorem dropWhile_eq_self_of_headNotP (p : Char → Bool) (l : List Char)
    (h : headNotP p l = true) : List.dropWhile p l = l := by
  cases l with
  | nil => rfl
  | cons c cs =>
    have hc : p c = false := by simpa [headNotP] using h
    rw [List.dropWhile_cons, if_neg (by simp [hc])]

theorem headNotP_of_append (p : Char → Bool) (u s t : List Char)
    (h : u ++ s = t) (ht : headNotP p t = true) : headNotP p u = true := by
  cases u with
  | nil => rfl
  | cons c cs =>
    subst h
    simpa [headNotP] using ht

theorem dropWhile_jsTrimList (l : List Char) :
    List.dropWhile jsSpace (jsTrimList l) = jsTrimList l := by
  apply dropWhile_eq_self_of_headNotP
  obtain ⟨s, hs⟩ := List.rdropWhile_prefix jsSpace (List.dropWhile jsSpace l)
  exact headNotP_of_append jsSpace _ s _ hs (headNotP_dropWhile jsSpace l)

theorem jsTrimList_idem (l : List Char) :
    jsTrimList (jsTrimList l) = jsTrimList l := by
  conv_lhs => rw [jsTrimList, dropWhile_jsTrimList]
  conv_lhs => rw [jsTrimList]
  exact List.rdropWhile_idempotent jsSpace _

/-! ### Idempotence of the filename sanitizer (claim C7) -/

theorem fileSafeList_unsafe_free (l : List Char) :
    ∀ c ∈ fileSafeList l, unsafeChar c = false := by
  intro c hc
  have hc2 := jsTrimList_subset _ c hc
  rcases collapseRunsAux_mem jsSpace ' ' _ false c hc2 with h | ⟨hmem, _⟩
  · subst h; decide
  · rcases collapseRunsAux_mem unsafeChar '_' l false c hmem with h | ⟨_, hp⟩
    · subst h; decide
    · exact hp

theorem fileSafeList_space_shape (l : List Char) :
    spaced jsSpace (fileSafeList l) = true
    ∧ (∀ c ∈ fileSafeList l, jsSpace c = true → c = ' ') := by
  constructor
  · have hz : spaced jsSpace
        (collapseRuns jsSpace ' ' (collapseRuns unsafeChar '_' l)) = true :=
      (collapseRunsAux_spaced jsSpace ' ' _ false).1
    obtain ⟨u, hu⟩ :=
      List.dropWhile_suffix (l := collapseRuns jsSpace ' ' (collapseRuns unsafeChar '_' l)) jsSpace
    obtain ⟨s, hs⟩ := List.rdropWhile_prefix jsSpace
      (List.dropWhile jsSpace (collapseRuns jsSpace ' ' (collapseRuns unsafeChar '_' l)))
    have h1 : spaced jsSpace (List.dropWhile jsSpace
        (collapseRuns jsSpace ' ' (collapseRuns unsafeChar '_' l))) = true := by
      apply spaced_append_right jsSpace u
      rw [hu]
      exact hz
    show spaced jsSpace (jsTrimList _) = true
    unfold jsTrimList
    apply spaced_append_left jsSpace _ s
    rw [hs]
    exact h1
  · intro c hc hsp
    have hc2 := jsTrimList_subset _ c hc
    rcases collapseRunsAux_mem jsSpace ' ' _ false c hc2 with h | ⟨_, hp⟩
    · exact h
    · rw [hsp] at hp
      exact absurd hp (by simp)

theorem fileSafeList_idem (l : List Char) :
    fileSafeList (fileSafeList l) = fileSafeList l := by
  have h1 : collapseRuns unsafeChar '_' (fileSafeList l) = fileSafeList l := by
    apply collapseRuns_eq_self
    · exact spaced_of_none unsafeChar _ (fileSafeList_unsafe_free l)
    · intro c hc hpc
      rw [fileSafeList_unsafe_free l c hc] at hpc
      exact absurd hpc (by simp)
  have h2 : collapseRuns jsSpace ' ' (fileSafeList l) = fileSafeList l := by
    apply collapseRuns_eq_self
    · exact (fileSafeList_space_shape l).1
    · exact (fileSafeList_space_shape l).2
  have h3 : jsTrimList (fileSafeList l) = fileSafeList l := by
    show jsTrimList (jsTrimList
      (collapseRuns jsSpace ' ' (collapseRuns unsafeChar '_' l))) = _
    rw [jsTrimList_idem]
    rfl
  calc fileSafeList (fileSafeList l)
      = jsTrimList (collapseRuns jsSpace ' '
          (collapseRuns unsafeChar '_' (fileSafeList l))) := rfl
    _ = jsTrimList (collapseRuns jsSpace ' ' (fileSafeList l)) := by rw [h1]
    _ = jsTrimList (fileSafeList l) := by rw [h2]
    _ = fileSafeList l := h3

/-- C7: filename sanitization is idempotent:
`fileSafe (fileSafe s) = fileSafe s` for every string `s`. -/
theorem fileSafe_idempotent (s : String) : fileSafe (fileSafe s) = fileSafe s := by
  show (⟨fileSafeList (fileSafeList s.data)⟩ : String) = ⟨fileSafeList s.data⟩
  rw [fileSafeList_idem]

/-! ### Run collapsing (claim C10) -/

theorem collapseRunsAux_flag (p : Char → Bool) (r : Char) (b : List Char)
    (hb : headNotP p b = true) (fl : Bool) :
    collapseRunsAux p r b fl = collapseRunsAux p r b false := by
  cases b with
  | nil => cases fl <;> rfl
  | cons c cs =>
    have hc : p c = false := by simpa [headNotP] using hb
    simp [collapseRunsAux, hc]

theorem collapseRunsAux_all_run (p : Char → Bool) (r : Char) :
    ∀ (u b : List Char), (∀ c ∈ u, p c = true) → headNotP p b = true →
      collapseRunsAux p r (u ++ b) true = collapseRunsAux p r b false := by
  intro u
  induction u with
  | nil => intro b _ hb; exact collapseRunsAux_flag p r b hb true
  | cons x us ih =>
    intro b hall hb
    have hx : p x = true := hall x (List.mem_cons_self x us)
    have : collapseRunsAux p r ((x :: us) ++ b) true
        = collapseRunsAux p r (us ++ b) true := by
      simp [collapseRunsAux, hx]
    rw [this]
    exact ih b (fun c hc => hall c (List.mem_cons_of_mem _ hc)) hb

theorem collapseRunsAux_nonp_prefixed (p : Char → Bool) (r : Char) :
    ∀ (a t : List Char), (∀ c ∈ a, p c = false) →
      collapseRunsAux p r (a ++ t) false = a ++ collapseRunsAux p r t false := by
  intro a
  induction a with
  | nil => intro t _; rfl
  | cons x xs ih =>
    intro t h
    have hx : p x = false := h x (List.mem_cons_self x xs)
    have hstep : collapseRunsAux p r ((x :: xs) ++ t) false
        = x :: collapseRunsAux p r (xs ++ t) false := by
      simp [collapseRunsAux, hx]
    rw [hstep, ih t (fun c hc => h c (List.mem_cons_of_mem _ hc))]
    rfl

/-- C10: the filename sanitizer maps every maximal run of consecutive
filesystem-unsafe characters to a single underscore (one per run, not one
per character); in particular `A//B` sanitizes to `A_B`, not `A__B`. -/
theorem fileSafe_collapses_runs :
    (∀ a u b : List Char, (∀ c ∈ a, unsafeChar c = false) →
      u ≠ [] → (∀ c ∈ u, unsafeChar c = true) → headNotP unsafeChar b = true →
      collapseRuns unsafeChar '_' (a ++ u ++ b)
        = a ++ '_' :: collapseRuns unsafeChar '_' b)
    ∧ fileSafe "A//B" = "A_B" ∧ fileSafe "A//B" ≠ "A__B" := by
  refine ⟨?_, by decide, by decide⟩
  intro a u b ha hne hu hb
  show collapseRunsAux unsafeChar '_' (a ++ u ++ b) false = _
  rw [List.append_assoc]
  rw [collapseRunsAux_nonp_prefixed unsafeChar '_' a (u ++ b) ha]
  congr 1
  cases u with
  | nil => exact absurd rfl hne
  | cons x us =>
    have hx : unsafeChar x = true := hu x (List.mem_cons_self x us)
    have hstep : collapseRunsAux unsafeChar '_' ((x :: us) ++ b) false
        = '_' :: collapseRunsAux unsafeChar '_' (us ++ b) true := by
      simp [collapseRunsAux, hx]
    rw [hstep,
      collapseRunsAux_all_run unsafeChar '_' us b
        (fun c hc => hu c (List.mem_cons_of_mem _ hc)) hb]
    rfl

/-- C10 witness: the general run-collapsing statement applied to the
concrete split `A` ++ `//` ++ `B`. -/
theorem fileSafe_collapses_runs_at_inputs :
    collapseRuns unsafeChar '_' (['A'] ++ ['/', '/'] ++ ['B'])
      = ['A'] ++ '_' :: collapseRuns unsafeChar '_' ['B'] :=
  fileSafe_collapses_runs.1 ['A'] ['/', '/'] ['B']
    (by decide) (by decide) (by decide) (by decide)

/-! ### Trimmed strings (towards claim C1) -/

theorem jsTrim_idem (s : String) : jsTrim (jsTrim s) = jsTrim s := by
  show (⟨jsTrimList (jsTrimList s.data)⟩ : String) = ⟨jsTrimList s.data⟩
  rw [jsTrimList_idem]

theorem jsTrim_jsPick (v : JSValue) : jsTrim (jsPick v) = jsPick v := by
  cases v with
  | null => decide
  | undefined => decide
  | bool b => exact jsTrim_idem (jsToString (.bool b))
  | num n => exact jsTrim_idem (jsToString (.num n))
  | str s => exact jsTrim_idem (jsToString (.str s))
  | arr xs => exact jsTrim_idem (jsToString (.arr xs))
  | obj fs => exact jsTrim_idem (jsToString (.obj fs))

theorem headNotP_of_none (p : Char → Bool) (l : List Char)
    (h : ∀ c ∈ l, p c = false) : headNotP p l = true := by
  cases l with
  | nil => rfl
  | cons c cs => simp [headNotP, h c (List.mem_cons_self c cs)]

theorem noSpace_trimList (l : List Char) (h : ∀ c ∈ l, jsSpace c = false) :
    jsTrimList l = l := by
  unfold jsTrimList
  rw [dropWhile_eq_self_of_headNotP jsSpace l (headNotP_of_none jsSpace l h)]
  rw [List.rdropWhile_eq_self_iff.mpr]
  intro hl
  simp [h _ (List.getLast_mem hl)]

theorem jsTrim_eq_self_of_no_space (s : String)
    (h : ∀ c ∈ s.data, jsSpace c = false) : jsTrim s = s := by
  show (⟨jsTrimList s.data⟩ : String) = s
  rw [noSpace_trimList s.data h]

theorem mem_data_append {c : Char} {s t : String} (h : c ∈ (s ++ t).data) :
    c ∈ s.data ∨ c ∈ t.data := by
  have he : (s ++ t).data = s.data ++ t.data := rfl
  rw [he] at h
  exact List.mem_append.mp h

theorem decDigitsFuel_mem :
    ∀ (fuel n : Nat) (acc : List Char) (c : Char),
      c ∈ decDigitsFuel fuel n acc → c ∈ acc ∨ ∃ k, k < 10 ∧ c = decDigit k := by
  intro fuel
  induction fuel with
  | zero =>
    intro n acc c hc
    rcases List.mem_cons.mp hc with h | h
    · exact Or.inr ⟨n % 10, Nat.mod_lt _ (by omega), h⟩
    · exact Or.inl h
  | succ f ih =>
    intro n acc c hc
    rw [decDigitsFuel] at hc
    split at hc
    · rcases List.mem_cons.mp hc with h | h
      · rename_i hn
        exact Or.inr ⟨n, hn, h⟩
      · exact Or.inl h
    · rcases ih (n / 10) _ c hc with h | h
      · rcases List.mem_cons.mp h with h2 | h2
        · exact Or.inr ⟨n % 10, Nat.mod_lt _ (by omega), h2⟩
        · exact Or.inl h2
      · exact Or.inr h

theorem natStr_no_space (n : Nat) : ∀ c ∈ (natStr n).data, jsSpace c = false := by
  intro c hc
  rcases decDigitsFuel_mem n n [] c hc with h | ⟨k, hk, rfl⟩
  · simp at h
  · interval_cases k <;> decide

theorem pad2_no_space (n : Nat) : ∀ c ∈ (pad2 n).data, jsSpace c = false := by
  intro c hc
  unfold pad2 at hc
  split at hc
  · rcases mem_data_append hc with h | h
    · rcases List.mem_singleton.mp h
      decide
    · exact natStr_no_space n c h
  · exact natStr_no_space n c hc

theorem pad4_no_space (n : Nat) : ∀ c ∈ (pad4 n).data, jsSpace c = false := by
  intro c hc
  unfold pad4 at hc
  split at hc
  · rcases mem_data_append hc with h | h
    · rcases List.mem_cons.mp h with h2 | h2
      · rw [h2]; decide
      · rcases List.mem_cons.mp h2 with h3 | h3
        · rw [h3]; decide
        · rcases List.mem_singleton.mp h3
          decide
    · exact natStr_no_space n c h
  · split at hc
    · rcases mem_data_append hc with h | h
      · rcases List.mem_cons.mp h with h2 | h2
        · rw [h2]; decide
        · rcases List.mem_singleton.mp h2
          decide
      · exact natStr_no_space n c h
    · split at hc
      · rcases mem_data_append hc with h | h
        · rcases List.mem_singleton.mp h
          decide
        · exact natStr_no_space n c h
      · exact natStr_no_space n c hc

theorem dayjsDDMMYYYY_no_space (d : CalDate) :
    ∀ c ∈ (dayjsDDMMYYYY d).data, jsSpace c = false := by
  intro c hc
  unfold dayjsDDMMYYYY at hc
  rcases mem_data_append hc with h | h
  · rcases mem_data_append h with h2 | h2
    · rcases mem_data_append h2 with h3 | h3
      · rcases mem_data_append h3 with h4 | h4
        · exact pad2_no_space d.day c h4
        · rcases List.mem_singleton.mp h4
          decide
      · exact pad2_no_space d.month c h3
    · rcases List.mem_singleton.mp h2
      decide
  · exact pad4_no_space d.year c h

/-! ### Shape of `sanitizeSubmission`s results (claims C1, C4, C6) -/

theorem sanitizePart_ok (p : JSValue) (i : Nat) (h : notNullish p = true) :
    sanitizePart p i = .ok (sanitizedPart p i) := by
  cases p <;> first | rfl | simp [notNullish] at h

theorem sanitizePart_ok_inv (p : JSValue) (i : Nat) (part : Participant)
    (h : sanitizePart p i = .ok part) : part = sanitizedPart p i := by
  cases p with
  | null => exact Except.noConfusion h
  | undefined => exact Except.noConfusion h
  | bool v => exact (Except.ok.inj h).symm
  | num n => exact (Except.ok.inj h).symm
  | str st => exact (Except.ok.inj h).symm
  | arr xs => exact (Except.ok.inj h).symm
  | obj fs => exact (Except.ok.inj h).symm

theorem sanitizeParts_ok : ∀ (xs : List JSValue) (i : Nat),
    (∀ p ∈ xs, notNullish p = true) →
    sanitizeParts xs i = .ok (sanitizedParts xs i) := by
  intro xs
  induction xs with
  | nil => intro i _; rfl
  | cons p rest ih =>
    intro i h
    show Except.bind (sanitizePart p i) (fun part =>
      Except.bind (sanitizeParts rest (i + 1))
        (fun tail => Except.ok (part :: tail))) = _
    rw [sanitizePart_ok p i (h p (List.mem_cons_self p rest)),
      ih (i + 1) (fun q hq => h q (List.mem_cons_of_mem _ hq))]
    rfl

theorem sanitizeParts_ok_inv : ∀ (xs : List JSValue) (i : Nat)
    (parts : List Participant), sanitizeParts xs i = .ok parts →
    parts = sanitizedParts xs i := by
  intro xs
  induction xs with
  | nil =>
    intro i parts h
    exact (Except.ok.inj h).symm
  | cons p rest ih =>
    intro i parts h
    have hb : Except.bind (sanitizePart p i) (fun part =>
        Except.bind (sanitizeParts rest (i + 1))
          (fun tail => Except.ok (part :: tail))) = .ok parts := h
    rcases hsp : sanitizePart p i with e | part
    · rw [hsp] at hb
      exact Except.noConfusion hb
    · rw [hsp] at hb
      rcases hst : sanitizeParts rest (i + 1) with e | tail
      · rw [hst] at hb
        exact Except.noConfusion hb
      · rw [hst] at hb
        have hb2 : Except.ok (part :: tail) = Except.ok parts := hb
        rw [← Except.ok.inj hb2]
        show _ = sanitizedPart p i :: sanitizedParts rest (i + 1)
        rw [sanitizePart_ok_inv p i part hsp, ih (i + 1) tail hst]

theorem sanitizedParts_length : ∀ (xs : List JSValue) (i : Nat),
    (sanitizedParts xs i).length = xs.length := by
  intro xs
  induction xs with
  | nil => intro i; rfl
  | cons p rest ih =>
    intro i
    show (sanitizedParts rest (i + 1)).length + 1 = rest.length + 1
    rw [ih (i + 1)]

theorem sanitizedParts_idx : ∀ (xs : List JSValue) (i j : Nat)
    (hj : j < (sanitizedParts xs i).length),
    ((sanitizedParts xs i).get ⟨j, hj⟩).idx = i + j + 1 := by
  intro xs
  induction xs with
  | nil =>
    intro i j hj
    simp [sanitizedParts] at hj
  | cons p rest ih =>
    intro i j hj
    cases j with
    | zero => rfl
    | succ j' =>
      have hj' : j' < (sanitizedParts rest (i + 1)).length := by
        simpa [sanitizedParts] using hj
      have hr := ih (i + 1) j' hj'
      show ((sanitizedParts rest (i + 1)).get ⟨j', hj'⟩).idx = i + (j' + 1) + 1
      rw [hr]
      omega

theorem sanitizedParts_mem : ∀ (xs : List JSValue) (i : Nat),
    ∀ q ∈ sanitizedParts xs i, ∃ p j, q = sanitizedPart p j := by
  intro xs
  induction xs with
  | nil =>
    intro i q hq
    simp [sanitizedParts] at hq
  | cons p rest ih =>
    intro i q hq
    simp only [sanitizedParts] at hq
    rcases List.mem_cons.mp hq with h | h
    · exact ⟨p, i, h⟩
    · exact ih (i + 1) q h

theorem partsResult_eq (b : JSValue) :
    (∃ xs, getPropD b "participants" = .arr xs
      ∧ partsResult b = sanitizeParts xs 0)
    ∨ (partsResult b = .ok [] ∧ arrLen (getPropD b "participants") = 0) := by
  unfold partsResult participantsOf arrLen
  cases getPropD b "participants" <;> simp

theorem sanitizeSubmission_eq (now : CalDate) (b : JSValue)
    (h : notNullish b = true) :
    sanitizeSubmission now b
      = Except.bind (partsResult b)
          (fun parts => Except.ok (sanitizedWith now b parts)) := by
  cases b <;> first | rfl | simp [notNullish] at h

theorem sanitizeSubmission_ok_inv (now : CalDate) (b : JSValue)
    (s : Submission) (h : sanitizeSubmission now b = .ok s) :
    notNullish b = true
    ∧ ∃ parts, partsResult b = .ok parts ∧ s = sanitizedWith now b parts := by
  have hb : notNullish b = true := by
    by_contra hb
    have hnn : b = .null ∨ b = .undefined := by
      cases b <;> simp_all [notNullish]
    rcases hnn with rfl | rfl
    · rw [show sanitizeSubmission now JSValue.null = .error () from rfl] at h
      exact Except.noConfusion h
    · rw [show sanitizeSubmission now JSValue.undefined = .error () from rfl] at h
      exact Except.noConfusion h
  refine ⟨hb, ?_⟩
  rw [sanitizeSubmission_eq now b hb] at h
  rcases hm : partsResult b with e | parts
  · rw [hm] at h
    exact Except.noConfusion h
  · rw [hm] at h
    have h2 : Except.ok (sanitizedWith now b parts) = Except.ok s := h
    exact ⟨parts, rfl, (Except.ok.inj h2).symm⟩

/-! ### The submission normalizer (claim C1) -/

/-- C1 counterexample: on an input object whose `participants` array holds a
`null` entry, `sanitizeSubmission` throws a `TypeError` (property access
`p.name` on `null`), so normalization does raise an error — the claim as
stated is false. -/
theorem sanitizeSubmission_throws_on_null_entry :
    sanitizeSubmission ⟨11, 10, 2026⟩
        (JSValue.obj [("participants", JSValue.arr [JSValue.null])])
      = .error ()
    ∧ ¬ ∃ s, sanitizeSubmission ⟨11, 10, 2026⟩
        (JSValue.obj [("participants", JSValue.arr [JSValue.null])])
      = .ok s := by
  refine ⟨rfl, ?_⟩
  rintro ⟨s, hs⟩
  rw [show sanitizeSubmission ⟨11, 10, 2026⟩
      (JSValue.obj [("participants", JSValue.arr [JSValue.null])])
      = .error () from rfl] at hs
  exact Except.noConfusion hs

/-- C1 (amended): for every non-nullish input value whose `participants`
field, when it is an array, has no `null`/`undefined` entries, normalization
succeeds and returns a Submission in which every field is a trimmed string
(empty by default, wrong-typed fields coerced through `String(...)`) and
`participants` is an ordered sequence of the array's length (empty when the
field is not an array); on a `null` or `undefined` participant entry it
throws instead. -/
theorem sanitizeSubmission_total_amended (now : CalDate) (b : JSValue)
    (hb : notNullish b = true)
    (hp : ∀ xs, getPropD b "participants" = .arr xs →
      ∀ p ∈ xs, notNullish p = true) :
    ∃ s, sanitizeSubmission now b = .ok s
      ∧ s.date = jsOr (jsPick (getPropD b "date")) (dayjsDDMMYYYY now)
      ∧ s.city = jsPick (getPropD b "city")
      ∧ s.club = jsPick (getPropD b "club")
      ∧ s.contacts = jsPick (getPropD b "contacts")
      ∧ s.coach = jsPick (getPropD b "coach")
      ∧ s.judge = jsPick (getPropD b "judge")
      ∧ s.judgeCategory = jsPick (getPropD b "judgeCategory")
      ∧ (jsTrim s.date = s.date ∧ jsTrim s.city = s.city
         ∧ jsTrim s.club = s.club ∧ jsTrim s.contacts = s.contacts
         ∧ jsTrim s.coach = s.coach ∧ jsTrim s.judge = s.judge
         ∧ jsTrim s.judgeCategory = s.judgeCategory)
      ∧ (∀ q ∈ s.participants, jsTrim q.name = q.name
         ∧ jsTrim q.birthYear = q.birthYear ∧ jsTrim q.hasRank = q.hasRank
         ∧ jsTrim q.performingRank = q.performingRank
         ∧ jsTrim q.medicalVisa = q.medicalVisa)
      ∧ s.participants.length = arrLen (getPropD b "participants") := by
  have hdate : jsTrim (jsOr (jsPick (getPropD b "date")) (dayjsDDMMYYYY now))
      = jsOr (jsPick (getPropD b "date")) (dayjsDDMMYYYY now) := by
    unfold jsOr
    split
    · exact jsTrim_eq_self_of_no_space _ (dayjsDDMMYYYY_no_space now)
    · exact jsTrim_jsPick _
  rcases partsResult_eq b with ⟨xs, hm, hpr⟩ | ⟨hpr, hlen⟩
  · have hok : partsResult b = .ok (sanitizedParts xs 0) := by
      rw [hpr]
      exact sanitizeParts_ok xs 0 (hp xs hm)
    refine ⟨sanitizedWith now b (sanitizedParts xs 0), ?_, rfl, rfl, rfl, rfl,
      rfl, rfl, rfl,
      ⟨hdate, jsTrim_jsPick _, jsTrim_jsPick _, jsTrim_jsPick _,
        jsTrim_jsPick _, jsTrim_jsPick _, jsTrim_jsPick _⟩, ?_, ?_⟩
    · rw [sanitizeSubmission_eq now b hb, hok]
      rfl
    · intro q hq
      obtain ⟨p, j, rfl⟩ := sanitizedParts_mem xs 0 q hq
      exact ⟨jsTrim_jsPick _, jsTrim_jsPick _, jsTrim_jsPick _,
        jsTrim_jsPick _, jsTrim_jsPick _⟩
    · show (sanitizedParts xs 0).length = arrLen (getPropD b "participants")
      rw [hm]
      exact sanitizedParts_length xs 0
  · refine ⟨sanitizedWith now b [], ?_, rfl, rfl, rfl, rfl, rfl, rfl, rfl,
      ⟨hdate, jsTrim_jsPick _, jsTrim_jsPick _, jsTrim_jsPick _,
        jsTrim_jsPick _, jsTrim_jsPick _, jsTrim_jsPick _⟩, ?_, ?_⟩
    · rw [sanitizeSubmission_eq now b hb, hpr]
      rfl
    · intro q hq
      exact (List.not_mem_nil q hq).elim
    · show List.length [] = arrLen (getPropD b "participants")
      rw [hlen]
      rfl

/-- C1 witness for the amended claim: the concrete malformed input with a
junk `idx`, an untrimmed name, and non-object participant entries. -/
theorem sanitizeSubmission_total_amended_at_input :
    ∃ s, sanitizeSubmission ⟨11, 10, 2026⟩ c1SampleInput = .ok s
      ∧ s.date = jsOr (jsPick (getPropD c1SampleInput "date"))
          (dayjsDDMMYYYY ⟨11, 10, 2026⟩)
      ∧ s.city = jsPick (getPropD c1SampleInput "city")
      ∧ s.club = jsPick (getPropD c1SampleInput "club")
      ∧ s.contacts = jsPick (getPropD c1SampleInput "contacts")
      ∧ s.coach = jsPick (getPropD c1SampleInput "coach")
      ∧ s.judge = jsPick (getPropD c1SampleInput "judge")
      ∧ s.judgeCategory = jsPick (getPropD c1SampleInput "judgeCategory")
      ∧ (jsTrim s.date = s.date ∧ jsTrim s.city = s.city
         ∧ jsTrim s.club = s.club ∧ jsTrim s.contacts = s.contacts
         ∧ jsTrim s.coach = s.coach ∧ jsTrim s.judge = s.judge
         ∧ jsTrim s.judgeCategory = s.judgeCategory)
      ∧ (∀ q ∈ s.participants, jsTrim q.name = q.name
         ∧ jsTrim q.birthYear = q.birthYear ∧ jsTrim q.hasRank = q.hasRank
         ∧ jsTrim q.performingRank = q.performingRank
         ∧ jsTrim q.medicalVisa = q.medicalVisa)
      ∧ s.participants.length = arrLen (getPropD c1SampleInput "participants") :=
  sanitizeSubmission_total_amended ⟨11, 10, 2026⟩ c1SampleInput rfl
    (fun xs h => by
      rw [show getPropD c1SampleInput "participants"
          = JSValue.arr c1SampleParts from rfl] at h
      injection h with h2
      subst h2
      decide)

/-! ### Participant ordinals (claim C4) -/

theorem sanitize_idx_dense (now : CalDate) (b : JSValue) (s : Submission)
    (h : sanitizeSubmission now b = .ok s) :
    ∀ j (hj : j < s.participants.length),
      (s.participants.get ⟨j, hj⟩).idx = j + 1 := by
  obtain ⟨hb, parts, hpr, rfl⟩ := sanitizeSubmission_ok_inv now b s h
  rcases partsResult_eq b with ⟨xs, hm, hpr2⟩ | ⟨hpr2, -⟩
  · rw [hpr2] at hpr
    have hparts := sanitizeParts_ok_inv xs 0 parts hpr
    subst hparts
    intro j hj
    have hr := sanitizedParts_idx xs 0 j hj
    simpa using hr
  · rw [hpr2] at hpr
    have hnil : ([] : List Participant) = parts := Except.ok.inj hpr
    subst hnil
    intro j hj
    have h0 : j < 0 := hj
    exact absurd h0 (Nat.not_lt_zero j)

/-- C4: each normalized participant's `idx` equals its 1-based position in
the input sequence regardless of any `idx`-like value in the input, and the
same ordinals appear in the log rows (`Participant #` column) and in the
first column of the rendered participant table. -/
theorem participant_ordinals (now : CalDate) (b : JSValue) (s : Submission)
    (ts : String) (h : sanitizeSubmission now b = .ok s) :
    (∀ j (hj : j < s.participants.length),
      (s.participants.get ⟨j, hj⟩).idx = j + 1)
    ∧ (1 ≤ s.participants.length →
        (submissionRows ts s).map (fun r => r.p_idx)
          = (List.range s.participants.length).map (fun j => some (j + 1)))
    ∧ (1 ≤ s.participants.length →
        (buildDocxBodyRows s).map (fun row => row.headD "")
          = (List.range s.participants.length).map (fun j => natStr (j + 1))) := by
  have hidx := sanitize_idx_dense now b s h
  refine ⟨hidx, ?_, ?_⟩
  · intro hN
    have hrows : submissionRows ts s = s.participants.map (participantRow ts s) := by
      rw [submissionRows, if_neg (by omega)]
    rw [hrows, List.map_map]
    apply List.ext_get
    · simp
    · intro n h1 h2
      have hn : n < s.participants.length := by simpa using h1
      have hv := hidx n hn
      simp only [List.get_eq_getElem, List.getElem_map, List.getElem_range,
        Function.comp_apply]
      show some ((s.participants.get ⟨n, hn⟩).idx) = some (n + 1)
      rw [hv]
  · intro hN
    have hsrc : docxBodySource s = s.participants.map some := by
      rw [docxBodySource, if_pos (by omega)]
    rw [buildDocxBodyRows, hsrc, docxRows_map_some, List.map_map]
    apply List.ext_get
    · simp
    · intro n h1 h2
      have hn : n < s.participants.length := by simpa using h1
      have hv := hidx n hn
      simp only [List.get_eq_getElem, List.getElem_map, List.getElem_range,
        Function.comp_apply]
      show natStr ((s.participants.get ⟨n, hn⟩).idx) = natStr (n + 1)
      rw [hv]

/-- C4 witness: an input whose participant entries carry `idx := 99` and
`idx := 0` still normalizes to ordinals 1 and 2, in the log and the
document alike. -/
theorem participant_ordinals_at_input :
    ((submissionRows "2026-10-11 09:00:00" c4SampleOut).map (fun r => r.p_idx)
      = (List.range c4SampleOut.participants.length).map (fun j => some (j + 1)))
    ∧ ((buildDocxBodyRows c4SampleOut).map (fun row => row.headD "")
      = (List.range c4SampleOut.participants.length).map (fun j => natStr (j + 1))) :=
  ⟨(participant_ordinals ⟨11, 10, 2026⟩ c4SampleInput c4SampleOut
      "2026-10-11 09:00:00" rfl).2.1 (by decide),
   (participant_ordinals ⟨11, 10, 2026⟩ c4SampleInput c4SampleOut
      "2026-10-11 09:00:00" rfl).2.2 (by decide)⟩

/-! ### The date default (claim C6) -/

/-- C6: when the input's date is absent or blank, the normalized date is the
wall-clock date formatted `DD.MM.YYYY`; when non-blank it is used trimmed;
the log rows' form-date column and the document's date line carry it
verbatim. -/
theorem date_defaults (now : CalDate) (b : JSValue) (s : Submission)
    (ts : String) (h : sanitizeSubmission now b = .ok s) :
    (jsPick (getPropD b "date") = "" → s.date = dayjsDDMMYYYY now)
    ∧ (jsPick (getPropD b "date") ≠ "" → s.date = jsPick (getPropD b "date"))
    ∧ (∀ r ∈ submissionRows ts s, r.date = s.date)
    ∧ docxDateLine s = "г. Мытищи, " ++ s.date
    ∧ dayjsDDMMYYYY now
        = pad2 now.day ++ "." ++ pad2 now.month ++ "." ++ pad4 now.year := by
  obtain ⟨hb, parts, hpr, rfl⟩ := sanitizeSubmission_ok_inv now b s h
  refine ⟨?_, ?_, ?_, rfl, rfl⟩
  · intro hd
    show jsOr (jsPick (getPropD b "date")) (dayjsDDMMYYYY now) = _
    simp [jsOr, hd]
  · intro hd
    show jsOr (jsPick (getPropD b "date")) (dayjsDDMMYYYY now) = _
    simp [jsOr, hd]
  · intro r hr
    rw [submissionRows] at hr
    split at hr
    · simp only [List.mem_singleton] at hr
      subst hr
      rfl
    · obtain ⟨p, -, rfl⟩ := List.mem_map.mp hr
      rfl

/-- C6 witness: an input without a date field, normalized on 05.03.2026,
shows `05.03.2026` in the submission, every log row, and the date line. -/
theorem date_defaults_at_input :
    (jsPick (getPropD c6SampleInput "date") = ""
      → c6SampleOut.date = dayjsDDMMYYYY ⟨5, 3, 2026⟩)
    ∧ (jsPick (getPropD c6SampleInput "date") ≠ ""
      → c6SampleOut.date = jsPick (getPropD c6SampleInput "date"))
    ∧ (∀ r ∈ submissionRows "2026-03-05 10:00:00" c6SampleOut,
        r.date = c6SampleOut.date)
    ∧ docxDateLine c6SampleOut = "г. Мытищи, " ++ c6SampleOut.date
    ∧ dayjsDDMMYYYY ⟨5, 3, 2026⟩
        = pad2 5 ++ "." ++ pad2 3 ++ "." ++ pad4 2026 :=
  date_defaults ⟨5, 3, 2026⟩ c6SampleInput c6SampleOut "2026-03-05 10:00:00"
    rfl

end RhythmicForm

